import Mathlib

/-!
Verification of the unhinged-algobot repository: a shallow embedding of the
indicator library and backtest engine of `testbot.py` and the signal logic of
`crypto_bot.py`, with theorems settling the specification's claims.

Python floats are modelled as exact rationals (ℚ); Python's `None` is `Option`.
Division in ℚ is total (division by zero yields 0), whereas Python would raise
`ZeroDivisionError`; no claim below depends on a zero divisor.
-/

namespace AlgoBot

/-! ## Indicator library (`testbot.py`) -/

/-- Embedding of `simple_moving_average(prices, period)`:
`if len(prices) < period: return None; return sum(prices[-period:]) / period`.
`prices[-period:]` is the suffix of the last `period` elements, i.e.
`drop (length - period)`.  (For `period = 0` Python would raise
`ZeroDivisionError`; in ℚ the division is total.  No claim evaluates
`period = 0` on the success branch.) -/
def simple_moving_average (prices : List ℚ) (period : ℕ) : Option ℚ :=
  if prices.length < period then none
  else some ((prices.drop (prices.length - period)).sum / (period : ℚ))

/-- Embedding of `exponential_moving_average(prices, period)`:
`if len(prices) < period: return None`; otherwise seed `ema = prices[0]`,
`multiplier = 2 / (period + 1)`, then
`for price in prices[1:]: ema = (price - ema) * multiplier + ema`.
The `[] => none` branch models the `IndexError` of `prices[0]` on an empty
list, reachable only when `period = 0`. -/
def exponential_moving_average (prices : List ℚ) (period : ℕ) : Option ℚ :=
  if prices.length < period then none
  else
    match prices with
    | [] => none
    | p0 :: rest =>
      let multiplier : ℚ := 2 / ((period : ℚ) + 1)
      some (rest.foldl (fun ema price => (price - ema) * multiplier + ema) p0)

/-- Recursion following the spec's words for the EMA success branch: "seeds the
running average with the first element of the entire input slice, then recurses
forward applying smoothing factor α = 2/(period+1) to every subsequent element
in the slice".  Used to compare the source's fold against the spec. -/
def emaSpecGo (alpha : ℚ) (acc : ℚ) : List ℚ → ℚ
  | [] => acc
  | x :: xs => emaSpecGo alpha ((x - acc) * alpha + acc) xs

/-- The whole EMA as described by the spec: unavailable below `period`
elements, otherwise the seeded recursion `emaSpecGo` with α = 2/(period+1). -/
def emaSpec (prices : List ℚ) (period : ℕ) : Option ℚ :=
  if prices.length < period then none
  else
    match prices with
    | [] => none
    | p0 :: rest => some (emaSpecGo (2 / ((period : ℚ) + 1)) p0 rest)

/-! ## Backtest engine (`testbot.py`, `backtest`) -/

/-- The mutable locals of `backtest` that persist across loop iterations:
`position` (signed; > 0 long, < 0 short, = 0 flat), `balance`, and
`entry_price` (a Python local first assigned at the first open; initialised to
0 here, and never read before an open has set it, since closes are guarded by
`position ≠ 0`). -/
structure BTState where
  position : ℚ
  balance : ℚ
  entry_price : ℚ
deriving DecidableEq

/-- Lines closing a short inside the bullish branch:
`profit = (entry_price - exit_price) * abs(position)`;
`balance = (entry_price * abs(position)) + profit`; `position = 0`. -/
def closeShort (s : BTState) (exit_price : ℚ) : BTState :=
  let profit := (s.entry_price - exit_price) * |s.position|
  { position := 0
    balance := s.entry_price * |s.position| + profit
    entry_price := s.entry_price }

/-- Lines opening a long: `entry_price = data[i][1]`;
`position = (balance * leverage) / entry_price`; `balance = 0`. -/
def openLong (s : BTState) (price leverage : ℚ) : BTState :=
  { position := s.balance * leverage / price
    balance := 0
    entry_price := price }

/-- Lines closing a long inside the bearish branch:
`profit = (exit_price - entry_price) * abs(position)`;
`balance = (entry_price * abs(position)) + profit`; `position = 0`. -/
def closeLong (s : BTState) (exit_price : ℚ) : BTState :=
  let profit := (exit_price - s.entry_price) * |s.position|
  { position := 0
    balance := s.entry_price * |s.position| + profit
    entry_price := s.entry_price }

/-- Lines opening a short: `entry_price = data[i][1]`;
`position = -(balance * leverage) / entry_price`;
`balance = balance - abs(position) * entry_price`. -/
def openShort (s : BTState) (price leverage : ℚ) : BTState :=
  let position := -(s.balance * leverage) / price
  { position := position
    balance := s.balance - |position| * price
    entry_price := price }

/-- One iteration of the `for i in range(long_window, len(data))` body, after
the moving averages have been computed: skip when either is `None`; bullish
branch (`short_ma > long_ma and position <= 0`) closes a short if open then
opens a long; `elif` bearish branch (`short_ma < long_ma and position >= 0`)
closes a long if open then opens a short. -/
def step (short_ma long_ma : Option ℚ) (price leverage : ℚ) (s : BTState) :
    BTState :=
  match short_ma, long_ma with
  | some sm, some lm =>
    if sm > lm ∧ s.position ≤ 0 then
      let s1 := if s.position < 0 then closeShort s price else s
      openLong s1 price leverage
    else if sm < lm ∧ s.position ≥ 0 then
      let s1 := if s.position > 0 then closeLong s price else s
      openShort s1 price leverage
    else s
  | _, _ => s

/-- The full loop body at index `i`:
`close_prices = [c[1] for c in data[:i]]` (a strict prefix of length `i`),
both EMAs over that prefix, trade price `data[i][1]`. -/
def btStep (data : List (ℚ × ℚ)) (short_window long_window : ℕ)
    (leverage : ℚ) (s : BTState) (i : ℕ) : BTState :=
  let close_prices := (data.take i).map Prod.snd
  step (exponential_moving_average close_prices short_window)
    (exponential_moving_average close_prices long_window)
    (data.getD i (0, 0)).2 leverage s

/-- The loop indices `range(long_window, len(data))`. -/
def btIndices (data_len long_window : ℕ) : List ℕ :=
  List.range' long_window (data_len - long_window)

/-- The engine state after the first `k` executed loop iterations, starting
from `position = 0`, `balance = initial_balance`. -/
def btStateAt (data : List (ℚ × ℚ)) (short_window long_window : ℕ)
    (initial_balance leverage : ℚ) (k : ℕ) : BTState :=
  ((btIndices data.length long_window).take k).foldl
    (btStep data short_window long_window leverage)
    ⟨0, initial_balance, 0⟩

/-- The engine state after the whole forward pass. -/
def btRun (data : List (ℚ × ℚ)) (short_window long_window : ℕ)
    (initial_balance leverage : ℚ) : BTState :=
  (btIndices data.length long_window).foldl
    (btStep data short_window long_window leverage)
    ⟨0, initial_balance, 0⟩

/-- The final position handling after the loop.  `position > 0`:
`exit_price = data[i][1]` where `i` is the loop variable left at
`len(data) - 1` (the last element), a dead store `balance = position * data[-1][1]`
that is immediately overwritten, `profit = (exit_price - entry_price) * abs(position)`,
`balance = (entry_price * abs(position)) + profit`.  `position < 0`:
`exit_price = data[-1][1]`, `profit = (entry_price - exit_price) * abs(position)`,
`balance = (entry_price * abs(position)) + profit`.  Otherwise `balance` is
returned unchanged.  `none` models the fault of reading the last element of an
empty series (unreachable from `backtest`, where a nonzero position implies a
nonempty series). -/
def finalize (data : List (ℚ × ℚ)) (s : BTState) : Option ℚ :=
  if s.position > 0 then
    match data.getLast? with
    | none => none
    | some last =>
      let exit_price := last.2
      let _balance_dead_store := s.position * last.2
      let profit := (exit_price - s.entry_price) * |s.position|
      some (s.entry_price * |s.position| + profit)
  else if s.position < 0 then
    match data.getLast? with
    | none => none
    | some last =>
      let exit_price := last.2
      let profit := (s.entry_price - exit_price) * |s.position|
      some (s.entry_price * |s.position| + profit)
  else some s.balance

/-- Embedding of `backtest(data, short_window, long_window, initial_balance,
leverage)`: forward pass, then final position handling; returns the final
balance (`none` marking the unreachable empty-series fault in the final
handling). -/
def backtest (data : List (ℚ × ℚ)) (short_window long_window : ℕ)
    (initial_balance leverage : ℚ) : Option ℚ :=
  finalize data (btRun data short_window long_window initial_balance leverage)

/-! ## Live signal engine (`crypto_bot.py`) -/

/-- One dataframe row as read by `check_trade_signals`: the columns `SMA`,
`LMA` and `RSI` it accesses. -/
structure IndicatorRow where
  sma : ℚ
  lma : ℚ
  rsi : ℚ
deriving DecidableEq

/-- `RSI_OVERBOUGHT = 70`. -/
def RSI_OVERBOUGHT : ℚ := 70

/-- `RSI_OVERSOLD = 30`. -/
def RSI_OVERSOLD : ℚ := 30

/-- Embedding of `check_trade_signals(df)`: `latest = df.iloc[-1]`,
`prev = df.iloc[-2]`;
`buy_signal = prev.SMA < prev.LMA and latest.SMA > latest.LMA and latest.RSI < RSI_OVERBOUGHT`;
`sell_signal = prev.SMA > prev.LMA and latest.SMA < latest.LMA and latest.RSI > RSI_OVERSOLD`.
`none` models the `IndexError` when the frame has fewer than two rows. -/
def check_trade_signals (df : List IndicatorRow) : Option (Bool × Bool) :=
  match df.dropLast.getLast?, df.getLast? with
  | some prev, some latest =>
    some
      (decide (prev.sma < prev.lma) && decide (latest.sma > latest.lma) &&
        decide (latest.rsi < RSI_OVERBOUGHT),
       decide (prev.sma > prev.lma) && decide (latest.sma < latest.lma) &&
        decide (latest.rsi > RSI_OVERSOLD))
  | _, _ => none

/-- The two sides a notification can carry; the source uses the strings
`"BUY"` and `"SELL"`, compared only for equality. -/
inductive Side where
  | buy
  | sell
deriving DecidableEq

/-- Embedding of `manage_trade_signals(buy_signal, sell_signal, ...)` acting
on the global `last_trade`: `if buy_signal and last_trade != "BUY"` then
notify BUY and set `last_trade = "BUY"`; `elif sell_signal and
last_trade != "SELL"` then notify SELL and set `last_trade = "SELL"`.
Returns the updated `last_trade` and the list of notifications sent this
cycle. -/
def manage_trade_signals (buy_signal sell_signal : Bool)
    (last_trade : Option Side) : Option Side × List Side :=
  if buy_signal = true ∧ last_trade ≠ some Side.buy then
    (some Side.buy, [Side.buy])
  else if sell_signal = true ∧ last_trade ≠ some Side.sell then
    (some Side.sell, [Side.sell])
  else (last_trade, [])

/-- A sequence of poll cycles of `main`: each cycle feeds its `(buy_signal,
sell_signal)` pair through `manage_trade_signals`, threading `last_trade`.
Returns the final `last_trade` and the concatenated notifications. -/
def runCycles (cycles : List (Bool × Bool)) (last_trade : Option Side) :
    Option Side × List Side :=
  match cycles with
  | [] => (last_trade, [])
  | (b, s) :: rest =>
    let st := manage_trade_signals b s last_trade
    let r := runCycles rest st.1
    (r.1, st.2 ++ r.2)

/-! ## Helper lemmas -/

/-- The source's `foldl` over the tail computes the spec's seeded recursion. -/
lemma ema_foldl_eq_emaSpecGo (m : ℚ) : ∀ (xs : List ℚ) (acc : ℚ),
    List.foldl (fun ema price => (price - ema) * m + ema) acc xs = emaSpecGo m acc xs
  | [], _ => rfl
  | x :: xs, acc => ema_foldl_eq_emaSpecGo m xs ((x - acc) * m + acc)

/-- The EMA recursion keeps a constant series' value fixed. -/
lemma emaSpecGo_const (m v : ℚ) : ∀ (n : ℕ), emaSpecGo m v (List.replicate n v) = v
  | 0 => rfl
  | n + 1 => by
    rw [List.replicate_succ]
    show emaSpecGo m ((v - v) * m + v) (List.replicate n v) = v
    rw [sub_self, zero_mul, zero_add]
    exact emaSpecGo_const m v n

/-- The source's EMA agrees everywhere with the spec's description of it. -/
lemma ema_eq_emaSpec (prices : List ℚ) (p : ℕ) :
    exponential_moving_average prices p = emaSpec prices p := by
  unfold exponential_moving_average emaSpec
  by_cases h : prices.length < p
  · rw [if_pos h, if_pos h]
  · rw [if_neg h, if_neg h]
    cases prices with
    | nil => rfl
    | cons p0 rest => exact congrArg some (ema_foldl_eq_emaSpecGo _ rest p0)

/-! ## Claims -/

/-- C6: for series shorter than the period, EMA and SMA return `None`; for
series of length at least the period (period ≥ 1), EMA seeds the running
average with the first element of the entire input series and folds every
subsequent element with smoothing factor 2/(period+1); consequently the result
depends on the full series, not only its last `period` elements (witnessed by
two series sharing their last two elements whose 2-period EMAs differ). -/
theorem ema_sma_availability_and_seeding (prices : List ℚ) (p : ℕ) :
    (prices.length < p →
      exponential_moving_average prices p = none ∧
      simple_moving_average prices p = none) ∧
    (1 ≤ p → p ≤ prices.length →
      ∀ p0 rest, prices = p0 :: rest →
        exponential_moving_average prices p =
          some (emaSpecGo (2 / ((p : ℚ) + 1)) p0 rest)) ∧
    exponential_moving_average [100, 1, 2] 2 ≠ exponential_moving_average [0, 1, 2] 2 ∧
    List.drop 1 [(100 : ℚ), 1, 2] = List.drop 1 [(0 : ℚ), 1, 2] := by
  refine ⟨?_, ?_, ?_, ?_⟩
  · intro h
    constructor
    · unfold exponential_moving_average
      rw [if_pos h]
    · unfold simple_moving_average
      rw [if_pos h]
  · intro hp hlen p0 rest hfirst
    subst hfirst
    rw [ema_eq_emaSpec]
    unfold emaSpec
    rw [if_neg (by omega)]
  · intro heq
    have h1 : exponential_moving_average [(100 : ℚ), 1, 2] 2 = some (38 / 3) := by
      unfold exponential_moving_average
      norm_num [List.foldl]
    have h2 : exponential_moving_average [(0 : ℚ), 1, 2] 2 = some (14 / 9) := by
      unfold exponential_moving_average
      norm_num [List.foldl]
    rw [h1, h2] at heq
    norm_num at heq
  · rfl

/-- Witness for C6 at period 2 and series `[3, 4]`. -/
theorem ema_sma_availability_and_seeding_witness :
    exponential_moving_average [3, 4] 2 =
      some (emaSpecGo (2 / (((2 : ℕ) : ℚ) + 1)) 3 [4]) :=
  (ema_sma_availability_and_seeding [3, 4] 2).2.1 (by norm_num) (by norm_num)
    3 [4] rfl

/-- C7: a constant series of value `v` and length at least the period is a
fixed point of the EMA: the result is exactly `v`. -/
theorem ema_constant_fixed_point (p n : ℕ) (v : ℚ) (hp : 1 ≤ p) (hn : p ≤ n) :
    exponential_moving_average (List.replicate n v) p = some v := by
  obtain ⟨m, rfl⟩ : ∃ m, n = m + 1 := ⟨n - 1, by omega⟩
  rw [ema_eq_emaSpec]
  unfold emaSpec
  rw [List.length_replicate, if_neg (by omega), List.replicate_succ]
  exact congrArg some (emaSpecGo_const _ v m)

/-- Witness for C7: the constant series `[5, 5, 5]` with period 2. -/
theorem ema_constant_fixed_point_witness :
    exponential_moving_average (List.replicate 3 (5 : ℚ)) 2 = some 5 :=
  ema_constant_fixed_point 2 3 5 (by norm_num) (by norm_num)

/-- C8: `check_trade_signals` reports a buy signal exactly when the previous
row has SMA < LMA, the latest row has SMA > LMA and the latest RSI is below
the overbought threshold, and a sell signal exactly when the previous row has
SMA > LMA, the latest row has SMA < LMA and the latest RSI is above the
oversold threshold; a window where SMA stays above LMA across both rows
yields no signal at all. -/
theorem check_trade_signals_characterisation (df : List IndicatorRow)
    (prev latest : IndicatorRow) (b s : Bool)
    (hprev : df.dropLast.getLast? = some prev)
    (hlatest : df.getLast? = some latest)
    (hchk : check_trade_signals df = some (b, s)) :
    (b = true ↔
      prev.sma < prev.lma ∧ latest.sma > latest.lma ∧
        latest.rsi < RSI_OVERBOUGHT) ∧
    (s = true ↔
      prev.sma > prev.lma ∧ latest.sma < latest.lma ∧
        latest.rsi > RSI_OVERSOLD) ∧
    (prev.sma > prev.lma → latest.sma > latest.lma →
      b = false ∧ s = false) := by
  unfold check_trade_signals at hchk
  rw [hprev, hlatest] at hchk
  injection hchk with hbs
  injection hbs with hb hs
  subst hb
  subst hs
  refine ⟨?_, ?_, ?_⟩
  · simp [Bool.and_eq_true, decide_eq_true_iff, and_assoc]
  · simp [Bool.and_eq_true, decide_eq_true_iff, and_assoc]
  · intro h1 h2
    constructor
    · simp only [Bool.and_eq_false_iff, decide_eq_false_iff_not, not_lt]
      exact Or.inl (Or.inl (le_of_lt h1))
    · simp only [Bool.and_eq_false_iff, decide_eq_false_iff_not, not_lt]
      exact Or.inl (Or.inr (le_of_lt h2))

/-- Witness for C8: a frame whose previous row has SMA 1 < LMA 2 and whose
latest row has SMA 5 > LMA 4 with RSI 50, producing a buy and no sell. -/
theorem check_trade_signals_characterisation_witness :
    ((true = true ↔
      (1 : ℚ) < 2 ∧ (5 : ℚ) > 4 ∧ (50 : ℚ) < RSI_OVERBOUGHT) ∧
    (false = true ↔
      (1 : ℚ) > 2 ∧ (5 : ℚ) < 4 ∧ (50 : ℚ) > RSI_OVERSOLD) ∧
    ((1 : ℚ) > 2 → (5 : ℚ) > 4 → true = false ∧ false = false)) :=
  check_trade_signals_characterisation
    [⟨1, 2, 3⟩, ⟨5, 4, 50⟩] ⟨1, 2, 3⟩ ⟨5, 4, 50⟩ true false
    rfl rfl (by norm_num [check_trade_signals, RSI_OVERBOUGHT, RSI_OVERSOLD])

/-- C10: the buy and sell signals of `check_trade_signals` are never both
true in the same cycle (their previous-row conditions are mutually
exclusive), and `manage_trade_signals` sends at most one notification per
cycle. -/
theorem signals_mutually_exclusive (df : List IndicatorRow) (b s : Bool)
    (buy_signal sell_signal : Bool) (last_trade : Option Side)
    (hchk : check_trade_signals df = some (b, s)) :
    ¬(b = true ∧ s = true) ∧
    (manage_trade_signals buy_signal sell_signal last_trade).2.length ≤ 1 := by
  constructor
  · rintro ⟨hb, hs⟩
    unfold check_trade_signals at hchk
    rcases hp : df.dropLast.getLast? with _ | prev
    · rw [hp] at hchk
      exact Option.noConfusion hchk
    rcases hl : df.getLast? with _ | latest
    · rw [hp, hl] at hchk
      exact Option.noConfusion hchk
    rw [hp, hl] at hchk
    injection hchk with hbs
    injection hbs with hb' hs'
    rw [hb] at hb'
    rw [hs] at hs'
    have h1 : prev.sma < prev.lma := by
      have h := hb'
      simp only [Bool.and_eq_true, decide_eq_true_iff] at h
      exact h.1.1
    have h2 : prev.sma > prev.lma := by
      have h := hs'
      simp only [Bool.and_eq_true, decide_eq_true_iff] at h
      exact h.1.1
    exact absurd h1 (not_lt_of_gt h2)
  · unfold manage_trade_signals
    split
    · simp
    · split
      · simp
      · simp

/-- Witness for C10 at a concrete two-row frame and a concrete cycle. -/
theorem signals_mutually_exclusive_witness :
    ¬(true = true ∧ false = true) ∧
    (manage_trade_signals true false none).2.length ≤ 1 :=
  signals_mutually_exclusive [⟨1, 2, 3⟩, ⟨5, 4, 50⟩] true false true false none
    (by norm_num [check_trade_signals, RSI_OVERBOUGHT, RSI_OVERSOLD])

/-- The three possible outcomes of one `manage_trade_signals` cycle. -/
lemma manage_trade_signals_cases (b s : Bool) (l : Option Side) :
    (manage_trade_signals b s l = (some Side.buy, [Side.buy]) ∧
      b = true ∧ l ≠ some Side.buy) ∨
    (manage_trade_signals b s l = (some Side.sell, [Side.sell]) ∧
      s = true ∧ l ≠ some Side.sell ∧ ¬(b = true ∧ l ≠ some Side.buy)) ∨
    (manage_trade_signals b s l = (l, [])) := by
  unfold manage_trade_signals
  by_cases h1 : b = true ∧ l ≠ some Side.buy
  · exact Or.inl ⟨if_pos h1, h1⟩
  · rw [if_neg h1]
    by_cases h2 : s = true ∧ l ≠ some Side.sell
    · exact Or.inr (Or.inl ⟨if_pos h2, h2.1, h2.2, h1⟩)
    · exact Or.inr (Or.inr (if_neg h2))

/-- Prefixing a stored side different from the head of an alternating list
keeps it alternating. -/
lemma chain_extend (l : Option Side) (e : Side) (t : List Side)
    (hne : l ≠ some e)
    (hc : List.Chain' (fun x y => x ≠ y) (e :: t)) :
    List.Chain' (fun x y => x ≠ y) (l.toList ++ (e :: t)) := by
  cases l with
  | none =>
    show List.Chain' (fun x y => x ≠ y) (e :: t)
    exact hc
  | some z =>
    show List.Chain' (fun x y => x ≠ y) (z :: e :: t)
    exact List.chain'_cons.mpr ⟨fun h => hne (congrArg some h), hc⟩

/-- The last element of a prefixed nonempty list is the last of its tail. -/
lemma getLast_extend (l : Option Side) (e : Side) (t : List Side) :
    (l.toList ++ (e :: t)).getLast? = (e :: t).getLast? :=
  List.getLast?_append_of_ne_nil l.toList (List.cons_ne_nil e t)

/-- Trace invariant of `runCycles`: prefixing the starting `last_trade` to the
emitted notifications gives a list with no two equal adjacent elements, and
the final `last_trade` is the last element of that list (the starting value
when nothing was emitted). -/
lemma runCycles_invariant :
    ∀ (cycles : List (Bool × Bool)) (l : Option Side),
      List.Chain' (fun x y => x ≠ y) (l.toList ++ (runCycles cycles l).2) ∧
      (runCycles cycles l).1 = (l.toList ++ (runCycles cycles l).2).getLast? := by
  intro cycles
  induction cycles with
  | nil =>
    intro l
    cases l with
    | none => exact ⟨List.chain'_nil, rfl⟩
    | some x => exact ⟨List.chain'_singleton x, rfl⟩
  | cons c rest ih =>
    intro l
    obtain ⟨b, s⟩ := c
    show List.Chain' (fun x y => x ≠ y)
        (l.toList ++ ((manage_trade_signals b s l).2 ++
          (runCycles rest (manage_trade_signals b s l).1).2)) ∧
      (runCycles rest (manage_trade_signals b s l).1).1 =
        (l.toList ++ ((manage_trade_signals b s l).2 ++
          (runCycles rest (manage_trade_signals b s l).1).2)).getLast?
    rcases manage_trade_signals_cases b s l with ⟨hm, _, hne⟩ | ⟨hm, _, hne, _⟩ | hm
    · rw [hm]
      obtain ⟨ihc, ihl⟩ := ih (some Side.buy)
      exact ⟨chain_extend l Side.buy _ hne ihc,
        ihl.trans (getLast_extend l Side.buy _).symm⟩
    · rw [hm]
      obtain ⟨ihc, ihl⟩ := ih (some Side.sell)
      exact ⟨chain_extend l Side.sell _ hne ihc,
        ihl.trans (getLast_extend l Side.sell _).symm⟩
    · rw [hm]
      exact ih l

/-- C9: a buy is actionable only when `last_trade` is not already BUY, a sell
only when it is not already SELL, `last_trade` becomes the emitted side on
each action, two consecutive cycles both satisfying the buy condition from
the initial state emit exactly one buy notification, and no run from the
initial state ever emits two consecutive notifications of the same side. -/
theorem alternation_gate (b s : Bool) (l : Option Side) (s1 s2 : Bool)
    (cycles : List (Bool × Bool)) :
    (Side.buy ∈ (manage_trade_signals b s l).2 ↔
      b = true ∧ l ≠ some Side.buy) ∧
    (Side.sell ∈ (manage_trade_signals b s l).2 ↔
      ¬(b = true ∧ l ≠ some Side.buy) ∧ s = true ∧ l ≠ some Side.sell) ∧
    (∀ x, x ∈ (manage_trade_signals b s l).2 →
      (manage_trade_signals b s l).1 = some x) ∧
    ((runCycles [(true, s1), (true, s2)] none).2).count Side.buy = 1 ∧
    List.Chain' (fun x y => x ≠ y) (runCycles cycles none).2 := by
  refine ⟨?_, ?_, ?_, ?_, ?_⟩
  · unfold manage_trade_signals
    by_cases h1 : b = true ∧ l ≠ some Side.buy
    · rw [if_pos h1]
      simpa using h1
    · rw [if_neg h1]
      by_cases h2 : s = true ∧ l ≠ some Side.sell
      · rw [if_pos h2]
        simp [h1]
      · rw [if_neg h2]
        simp [h1]
  · unfold manage_trade_signals
    by_cases h1 : b = true ∧ l ≠ some Side.buy
    · rw [if_pos h1]
      simp [h1]
    · rw [if_neg h1]
      by_cases h2 : s = true ∧ l ≠ some Side.sell
      · rw [if_pos h2]
        simp [h1, h2]
      · rw [if_neg h2]
        simp [h1, h2]
  · unfold manage_trade_signals
    by_cases h1 : b = true ∧ l ≠ some Side.buy
    · rw [if_pos h1]
      intro x hx
      rw [List.mem_singleton.mp hx]
    · rw [if_neg h1]
      by_cases h2 : s = true ∧ l ≠ some Side.sell
      · rw [if_pos h2]
        intro x hx
        rw [List.mem_singleton.mp hx]
      · rw [if_neg h2]
        intro x hx
        exact absurd hx (List.not_mem_nil x)
  · cases s1 <;> cases s2 <;> decide
  · have h := (runCycles_invariant cycles none).1
    simpa using h

/-- Witness for C9: two consecutive buy-condition cycles from the initial
state emit exactly one buy notification. -/
theorem alternation_gate_witness :
    ((runCycles [(true, true), (true, false)] none).2).count Side.buy = 1 :=
  (alternation_gate true false none true false [(true, false)]).2.2.2.1

/-- C1: closing a short realises `profit = (entry − exit) × size` and sets
`balance = entry × size + profit` independently of the balance held before;
closing a long realises `profit = (exit − entry) × size` with the same
balance formula.  This holds for the in-loop closes (the bullish branch of
`step` from a short state is exactly close-short-then-open-long, the bearish
branch from a long state exactly close-long-then-open-short) and for the
final force-close of `finalize`. -/
theorem close_formulas (s : BTState) (x : ℚ) :
    (closeShort s x).position = 0 ∧
    (closeShort s x).balance =
      s.entry_price * |s.position| + (s.entry_price - x) * |s.position| ∧
    (closeLong s x).position = 0 ∧
    (closeLong s x).balance =
      s.entry_price * |s.position| + (x - s.entry_price) * |s.position| ∧
    (∀ b b', closeShort ⟨s.position, b, s.entry_price⟩ x =
      closeShort ⟨s.position, b', s.entry_price⟩ x) ∧
    (∀ b b', closeLong ⟨s.position, b, s.entry_price⟩ x =
      closeLong ⟨s.position, b', s.entry_price⟩ x) ∧
    (∀ sm lm lev, lm < sm → s.position < 0 →
      step (some sm) (some lm) x lev s = openLong (closeShort s x) x lev) ∧
    (∀ sm lm lev, sm < lm → 0 < s.position →
      step (some sm) (some lm) x lev s = openShort (closeLong s x) x lev) ∧
    (∀ (data : List (ℚ × ℚ)) last, data.getLast? = some last →
      s.position < 0 →
      finalize data s =
        some (s.entry_price * |s.position| +
          (s.entry_price - last.2) * |s.position|)) ∧
    (∀ (data : List (ℚ × ℚ)) last, data.getLast? = some last →
      0 < s.position →
      finalize data s =
        some (s.entry_price * |s.position| +
          (last.2 - s.entry_price) * |s.position|)) := by
  refine ⟨rfl, rfl, rfl, rfl, fun _ _ => rfl, fun _ _ => rfl, ?_, ?_, ?_, ?_⟩
  · intro sm lm lev h1 h2
    have hcond : sm > lm ∧ s.position ≤ 0 := ⟨h1, le_of_lt h2⟩
    simp only [step]
    rw [if_pos hcond, if_pos h2]
  · intro sm lm lev h1 h2
    have hncond : ¬(sm > lm ∧ s.position ≤ 0) := fun hc => lt_asymm h1 hc.1
    have hcond2 : sm < lm ∧ s.position ≥ 0 := ⟨h1, le_of_lt h2⟩
    simp only [step]
    rw [if_neg hncond, if_pos hcond2, if_pos h2]
  · intro data last hl h2
    unfold finalize
    rw [if_neg (asymm h2), if_pos h2, hl]
  · intro data last hl h2
    unfold finalize
    rw [if_pos h2, hl]

/-- Witness for C1: a bullish step from a short state of size 2 entered at 5,
closed and flipped long at price 3. -/
theorem close_formulas_witness :
    step (some 2) (some 1) 3 1 ⟨-2, 7, 5⟩ = openLong (closeShort ⟨-2, 7, 5⟩ 3) 3 1 :=
  (close_formulas ⟨-2, 7, 5⟩ 3).2.2.2.2.2.2.1 2 1 1 (by norm_num)
    (by norm_num : (-2 : ℚ) < 0)

/-- C2: opening a long sets `size = balance × leverage / price` and zeroes
the balance; opening a short sets the same size (as the magnitude of the
negative position) but updates `balance = balance − size × price`, so for
leverage 1 both post-open balances are 0, while for leverage > 1 (and
positive balance) the short branch leaves the balance negative and the long
branch leaves it 0. -/
theorem open_formulas (b e price lev sm lm : ℚ)
    (hb : 0 ≤ b) (hlev : 0 ≤ lev) (hp : 0 < price) :
    (∀ s : BTState, openLong s price lev = ⟨s.balance * lev / price, 0, price⟩) ∧
    (openShort ⟨0, b, e⟩ price lev).position = -(b * lev) / price ∧
    |(openShort ⟨0, b, e⟩ price lev).position| = b * lev / price ∧
    (openShort ⟨0, b, e⟩ price lev).balance = b - b * lev / price * price ∧
    (lm < sm →
      step (some sm) (some lm) price lev ⟨0, b, e⟩ =
        ⟨b * lev / price, 0, price⟩) ∧
    (sm < lm →
      step (some sm) (some lm) price lev ⟨0, b, e⟩ =
        ⟨-(b * lev) / price, b - b * lev / price * price, price⟩) ∧
    (lev = 1 → (openShort ⟨0, b, e⟩ price lev).balance = 0 ∧
      (openLong ⟨0, b, e⟩ price lev).balance = 0) ∧
    (1 < lev → 0 < b → (openShort ⟨0, b, e⟩ price lev).balance < 0 ∧
      (openLong ⟨0, b, e⟩ price lev).balance = 0) := by
  have habs : |(-(b * lev) / price)| = b * lev / price := by
    rw [neg_div, abs_neg,
      abs_of_nonneg (div_nonneg (mul_nonneg hb hlev) hp.le)]
  have hshortbal : (openShort ⟨0, b, e⟩ price lev).balance =
      b - b * lev / price * price := by
    show b - |(-(b * lev) / price)| * price = b - b * lev / price * price
    rw [habs]
  refine ⟨fun _ => rfl, rfl, habs, hshortbal, ?_, ?_, ?_, ?_⟩
  · intro h
    have hcond : sm > lm ∧ (⟨0, b, e⟩ : BTState).position ≤ 0 :=
      ⟨h, le_refl (0 : ℚ)⟩
    simp only [step]
    rw [if_pos hcond, if_neg (lt_irrefl (0 : ℚ))]
    rfl
  · intro h
    have hncond : ¬(sm > lm ∧ (⟨0, b, e⟩ : BTState).position ≤ 0) :=
      fun hc => lt_asymm h hc.1
    have hcond2 : sm < lm ∧ (⟨0, b, e⟩ : BTState).position ≥ 0 :=
      ⟨h, le_refl (0 : ℚ)⟩
    simp only [step]
    rw [if_neg hncond, if_pos hcond2, if_neg (lt_irrefl (0 : ℚ))]
    show (⟨-(b * lev) / price, b - |(-(b * lev) / price)| * price, price⟩ :
      BTState) = _
    rw [habs]
  · intro hlev1
    subst hlev1
    refine ⟨?_, rfl⟩
    rw [hshortbal, mul_one, div_mul_cancel₀ b hp.ne', sub_self]
  · intro hlev1 hb0
    refine ⟨?_, rfl⟩
    rw [hshortbal, div_mul_cancel₀ (b * lev) hp.ne']
    have := mul_lt_mul_of_pos_left hlev1 hb0
    linarith

/-- Witness for C2: a bearish flat-state step at price 2, leverage 1,
balance 100 opens a short of size 50 and leaves balance 0. -/
theorem open_formulas_witness :
    step (some 1) (some 2) 2 1 ⟨0, 100, 0⟩ =
      ⟨-(100 * 1) / 2, 100 - 100 * 1 / 2 * 2, 2⟩ :=
  (open_formulas 100 0 2 1 1 2 (by norm_num) (by norm_num)
    (by norm_num)).2.2.2.2.2.1 (by norm_num)

/-- C3: at every step of the backtest the position is exactly one of zero
(Flat), positive (Long) or negative (Short), and whenever it is non-Flat its
size (the magnitude of the position) is strictly positive. -/
theorem position_trichotomy (data : List (ℚ × ℚ)) (sw lw : ℕ)
    (ib lev : ℚ) (k : ℕ) :
    (((btStateAt data sw lw ib lev k).position = 0 ∧
        ¬0 < (btStateAt data sw lw ib lev k).position ∧
        ¬(btStateAt data sw lw ib lev k).position < 0) ∨
      (0 < (btStateAt data sw lw ib lev k).position ∧
        (btStateAt data sw lw ib lev k).position ≠ 0 ∧
        ¬(btStateAt data sw lw ib lev k).position < 0) ∨
      ((btStateAt data sw lw ib lev k).position < 0 ∧
        (btStateAt data sw lw ib lev k).position ≠ 0 ∧
        ¬0 < (btStateAt data sw lw ib lev k).position)) ∧
    ((btStateAt data sw lw ib lev k).position ≠ 0 →
      0 < |(btStateAt data sw lw ib lev k).position|) := by
  constructor
  · rcases lt_trichotomy (btStateAt data sw lw ib lev k).position 0 with h | h | h
    · exact Or.inr (Or.inr ⟨h, ne_of_lt h, asymm h⟩)
    · refine Or.inl ⟨h, ?_, ?_⟩
      · rw [h]
        exact lt_irrefl 0
      · rw [h]
        exact lt_irrefl 0
    · exact Or.inr (Or.inl ⟨h, ne_of_gt h, asymm h⟩)
  · intro h
    exact abs_pos.mpr h

/-- Witness for C3 on the empty series (the initial Flat state). -/
theorem position_trichotomy_witness :
    (((btStateAt [] 1 2 5 1 0).position = 0 ∧
        ¬0 < (btStateAt [] 1 2 5 1 0).position ∧
        ¬(btStateAt [] 1 2 5 1 0).position < 0) ∨
      (0 < (btStateAt [] 1 2 5 1 0).position ∧
        (btStateAt [] 1 2 5 1 0).position ≠ 0 ∧
        ¬(btStateAt [] 1 2 5 1 0).position < 0) ∨
      ((btStateAt [] 1 2 5 1 0).position < 0 ∧
        (btStateAt [] 1 2 5 1 0).position ≠ 0 ∧
        ¬0 < (btStateAt [] 1 2 5 1 0).position)) ∧
    ((btStateAt [] 1 2 5 1 0).position ≠ 0 →
      0 < |(btStateAt [] 1 2 5 1 0).position|) :=
  position_trichotomy [] 1 2 5 1 0

/-- C4: for a series no longer than `long_window` the loop index range is
empty, the state never changes, the final handling reads no element, and the
backtest returns exactly the initial balance. -/
theorem backtest_short_series (data : List (ℚ × ℚ)) (sw lw : ℕ)
    (ib lev : ℚ) (h : data.length ≤ lw) :
    btIndices data.length lw = [] ∧
    btRun data sw lw ib lev = ⟨0, ib, 0⟩ ∧
    backtest data sw lw ib lev = some ib := by
  have hz : data.length - lw = 0 := Nat.sub_eq_zero_of_le h
  have hind : btIndices data.length lw = [] := by
    unfold btIndices
    rw [hz]
    rfl
  have hrun : btRun data sw lw ib lev = ⟨0, ib, 0⟩ := by
    unfold btRun btIndices
    rw [hz]
    rfl
  have hbt : backtest data sw lw ib lev = some ib := by
    unfold backtest
    rw [hrun]
    unfold finalize
    rw [if_neg (lt_irrefl (0 : ℚ)), if_neg (lt_irrefl (0 : ℚ))]
  exact ⟨hind, hrun, hbt⟩

/-- Witness for C4 on the empty series with the default parameters. -/
theorem backtest_short_series_witness :
    btIndices (List.length ([] : List (ℚ × ℚ))) 55 = [] ∧
    btRun [] 15 55 10000 1 = ⟨0, 10000, 0⟩ ∧
    backtest [] 15 55 10000 1 = some 10000 :=
  backtest_short_series [] 15 55 10000 1 (by norm_num)

/-- C5: after the forward pass, a still-open long (resp. short) position is
force-closed against the last element's close price with exactly the balance
the in-loop `closeLong` (resp. `closeShort`) would produce, a Flat state
returns the balance already held, and `backtest` returns `finalize` of the
state the pass ends in. -/
theorem final_close_refines (data : List (ℚ × ℚ)) (s : BTState) :
    (∀ last, data.getLast? = some last → 0 < s.position →
      finalize data s = some ((closeLong s last.2).balance)) ∧
    (∀ last, data.getLast? = some last → s.position < 0 →
      finalize data s = some ((closeShort s last.2).balance)) ∧
    (s.position = 0 → finalize data s = some s.balance) ∧
    (∀ (sw lw : ℕ) (ib lev : ℚ),
      backtest data sw lw ib lev =
        finalize data (btRun data sw lw ib lev)) := by
  refine ⟨?_, ?_, ?_, fun _ _ _ _ => rfl⟩
  · intro last hl h
    unfold finalize
    rw [if_pos h, hl]
    rfl
  · intro last hl h
    unfold finalize
    rw [if_neg (asymm h), if_pos h, hl]
    rfl
  · intro h
    unfold finalize
    rw [h, if_neg (lt_irrefl (0 : ℚ)), if_neg (lt_irrefl (0 : ℚ))]

/-- Witness for C5: a long of size 3 entered at 2 is force-closed at the
final close price 4. -/
theorem final_close_refines_witness :
    finalize [(1, 4)] ⟨3, 9, 2⟩ = some ((closeLong ⟨3, 9, 2⟩ 4).balance) :=
  (final_close_refines [(1, 4)] ⟨3, 9, 2⟩).1 (1, 4) rfl
    (by norm_num : (0 : ℚ) < 3)

end AlgoBot
